import Mathlib

/-!
Shallow embedding of `partition.go` from tenex/grokdisk.

The Go file analyzes a raw disk image: it opens the file, seeks to the fixed
MBR partition-table offset 0x1BE (446), and decodes four consecutive 16-byte
partition entries with `binary.Read(imageFile, binary.LittleEndian, metadata)`.

Modelling decisions, each tied to the source:

* A file is modelled as `Option (List Nat)` — `none` when `os.Open` fails,
  `some content` when it yields a readable byte sequence.  Bytes are `Nat`;
  theorems that need them to be byte-sized carry an explicit `< 256` bound.
* `os.File.Seek(446, SEEK_SET)` on a regular file never fails for a
  non-negative offset: POSIX `lseek` allows seeking at or beyond end-of-file
  (the error surfaces only at the subsequent read).  The model therefore
  takes the seek step as always succeeding and places the cursor at 446;
  the `SeekFailed` error kind is kept in the error type because the Go code
  has that return path, but on the modelled regular-file semantics it is
  never produced.
* `binary.Read` with a fixed-size struct uses `io.ReadFull` semantics: it
  either consumes exactly 16 bytes or fails (EOF / unexpected EOF), which the
  Go code wraps as a per-slot error.  `decodePartitionMetadata` mirrors this:
  `some` exactly when 16 bytes remain at the cursor, `none` otherwise.
* The struct field order of `PartitionMetadata` fixes the wire layout used by
  `binary.Read`: eight single bytes, then two little-endian `uint32` values.
* Go pointer back-references (`Partition.ImageFile` pointing at the owning
  `ImageFileMetadata`) cannot be a cyclic pure value; the image-level fields
  reachable through the pointer (`SectorSize`, `Filepath`) are materialised
  as `ImageInfo`, and pointer identity becomes equality of those fields.
* `uint64` arithmetic in `Start`/`Size` is `Nat` arithmetic reduced mod 2^64.
* Errors are modelled at two levels.  `AnalyzeError` is internal and
  instrumented: its `decodeFailed` constructor records at which loop
  iteration the failing read happened, which is needed to reason about the
  control flow.  The error value the Go caller receives carries no slot
  index — every failed `binary.Read` is wrapped with the same constant
  message "could not read partition entry" over `io.EOF` or
  `io.ErrUnexpectedEOF` — so the caller-visible behaviour is
  `AnalyzeImageFileCaller`, which erases the index through `callerView`.
-/

/-- MBRPartitionTableOffset is the absolute location of the start of the MBR
partition table, 0x1BE = 446 (from the Go constant of the same name). -/
def MBRPartitionTableOffset : Nat := 0x1BE

/-- MBRPartitionTableSize is the length of one partition table entry in
bytes, 0x10 = 16 (from the Go constant of the same name). -/
def MBRPartitionTableSize : Nat := 0x10

/-- PartitionMetadata mirrors the Go struct: the 16-byte partition table
entry from the image MBR record.  Field order is the wire order consumed by
`binary.Read(..., binary.LittleEndian, ...)`. -/
structure PartitionMetadata where
  Status : Nat
  StartHead : Nat
  StartSector : Nat
  StartCylinder : Nat
  PartitionType : Nat
  EndHead : Nat
  EndSector : Nat
  EndCylinder : Nat
  FirstSectorLBA : Nat
  SectorCount : Nat
deriving DecidableEq, Repr

/-- ImageInfo is the image-level data reachable through a partition's
`ImageFile` back-pointer in the Go code (`SectorSize` and `Filepath` of the
owning `ImageFileMetadata`). -/
structure ImageInfo where
  SectorSize : Nat
  Filepath : String
deriving DecidableEq, Repr

/-- Partition mirrors the Go struct: the embedded 16-byte entry plus the
back-reference to the image file in which this partition was found. -/
structure Partition where
  PartitionMetadata : PartitionMetadata
  ImageFile : ImageInfo
deriving DecidableEq, Repr

/-- ImageFileMetadata mirrors the Go struct: sector size, file path, and the
list of partitions built by `AnalyzeImageFile`. -/
structure ImageFileMetadata where
  SectorSize : Nat
  Filepath : String
  Partitions : List Partition
deriving DecidableEq, Repr

/-- Internal error kinds of `AnalyzeImageFile`, one per `return nil, err`
path of the Go function: open failure, seek failure, and decode (read)
failure.  The `slotIndex` payload is analysis instrumentation recording at
which loop iteration the failing `binary.Read` happened; it is NOT part of
the Go error value the caller receives — the code wraps the read error with
the constant message "could not read partition entry", the same for every
slot.  The caller-visible projection of these errors is `CallerError` via
`callerView` below. -/
inductive AnalyzeError where
  | openFailed
  | seekFailed
  | decodeFailed (slotIndex : Nat)
deriving DecidableEq, Repr

deriving instance DecidableEq for Except

/-- Little-endian reassembly of a `uint32` from four bytes, as performed by
`binary.Read` with `binary.LittleEndian` on a `uint32` field. -/
def readUInt32LE (b0 b1 b2 b3 : Nat) : Nat :=
  b0 + 2 ^ 8 * b1 + 2 ^ 16 * b2 + 2 ^ 24 * b3

/-- Field extraction of one 16-byte entry from the byte stream `l`
(the file content from the current cursor on), in the Go struct order. -/
def decodeFields (l : List Nat) : PartitionMetadata where
  Status := l.getD 0 0
  StartHead := l.getD 1 0
  StartSector := l.getD 2 0
  StartCylinder := l.getD 3 0
  PartitionType := l.getD 4 0
  EndHead := l.getD 5 0
  EndSector := l.getD 6 0
  EndCylinder := l.getD 7 0
  FirstSectorLBA := readUInt32LE (l.getD 8 0) (l.getD 9 0) (l.getD 10 0) (l.getD 11 0)
  SectorCount := readUInt32LE (l.getD 12 0) (l.getD 13 0) (l.getD 14 0) (l.getD 15 0)

/-- One `binary.Read(imageFile, binary.LittleEndian, metadata)` call on the
stream remainder `l`: `io.ReadFull` semantics require all 16 bytes of the
struct, so the read succeeds exactly when 16 bytes remain. -/
def decodePartitionMetadata (l : List Nat) : Option PartitionMetadata :=
  if 16 ≤ l.length then some (decodeFields l) else none

/-- The four-iteration read loop of `AnalyzeImageFile`: `pos` is the file
cursor (the Go file offset after the seek and previous reads), `slotIndex`
the loop variable `partitionIndex`, `count` the remaining iterations.  A
failed read aborts with `decodeFailed slotIndex`, mirroring
`return nil, errors.Wrap(err, "could not read partition entry")`. -/
def readPartitionEntries (content : List Nat) :
    Nat → Nat → Nat → Except AnalyzeError (List PartitionMetadata)
  | _, _, 0 => .ok []
  | pos, slotIndex, count + 1 =>
    match decodePartitionMetadata (content.drop pos) with
    | none => .error (.decodeFailed slotIndex)
    | some m =>
      match readPartitionEntries content (pos + 16) (slotIndex + 1) count with
      | .error e => .error e
      | .ok rest => .ok (m :: rest)

/-- AnalyzeImageFile enumerates the four MBR partition entries of the image.
`file` is the outcome of `os.Open path`: `none` if opening failed, otherwise
the byte content.  The seek to `MBRPartitionTableOffset` always succeeds on
a regular file (POSIX `lseek` permits offsets beyond end-of-file), so the
model proceeds to the read loop with the cursor at 446. -/
def AnalyzeImageFile (path : String) (file : Option (List Nat)) :
    Except AnalyzeError ImageFileMetadata :=
  match file with
  | none => .error .openFailed
  | some content =>
    match readPartitionEntries content MBRPartitionTableOffset 0 4 with
    | .error e => .error e
    | .ok entries =>
      .ok
        { SectorSize := 512
          Filepath := path
          Partitions := entries.map fun m =>
            { PartitionMetadata := m
              ImageFile := { SectorSize := 512, Filepath := path } } }

/-- Start computes the start byte offset of the partition:
`uint64(p.FirstSectorLBA) * uint64(p.ImageFile.SectorSize)` with `uint64`
overflow semantics. -/
def Partition.Start (p : Partition) : Nat :=
  p.PartitionMetadata.FirstSectorLBA * p.ImageFile.SectorSize % 2 ^ 64

/-- Size computes the byte length of the partition:
`uint64(p.SectorCount) * uint64(p.ImageFile.SectorSize)` with `uint64`
overflow semantics. -/
def Partition.Size (p : Partition) : Nat :=
  p.PartitionMetadata.SectorCount * p.ImageFile.SectorSize % 2 ^ 64

/-- Little-endian serialisation of a `uint32` value back into four bytes
(the inverse direction of `readUInt32LE`, per the §6 layout of the spec). -/
def uint32LEBytes (n : Nat) : List Nat :=
  [n % 2 ^ 8, n / 2 ^ 8 % 2 ^ 8, n / 2 ^ 16 % 2 ^ 8, n / 2 ^ 24 % 2 ^ 8]

/-- Re-encoding of one decoded entry: each field written back at its entry
offset, multi-byte fields little-endian (the §6 layout read in reverse). -/
def encodePartitionMetadata (m : PartitionMetadata) : List Nat :=
  [m.Status, m.StartHead, m.StartSector, m.StartCylinder,
   m.PartitionType, m.EndHead, m.EndSector, m.EndCylinder] ++
  uint32LEBytes m.FirstSectorLBA ++ uint32LEBytes m.SectorCount

/-- The list of entries the loop produces on the success path: one
`decodeFields` per slot, cursor advancing 16 bytes per slot. -/
def entriesFrom (content : List Nat) : Nat → Nat → List PartitionMetadata
  | _, 0 => []
  | pos, count + 1 => decodeFields (content.drop pos) :: entriesFrom content (pos + 16) count

/-- Underlying io error of a failed `binary.Read` on a fixed-size struct
(`io.ReadFull` semantics): `io.EOF` when no byte of the entry was available
at the read position, `io.ErrUnexpectedEOF` when 1 to 15 bytes were. -/
inductive GoIOError where
  | eof
  | unexpectedEOF
deriving DecidableEq, Repr

/-- The failure value the Go caller actually receives from
`AnalyzeImageFile`: one of three `errors.Wrap` results, distinguished only
by their constant message strings — "could not open image file", "could not
seek partition table", "could not read partition entry" — the last wrapping
its io cause.  No constructor carries a slot index, because the wrap
message of the read path is the same constant for every slot and neither
`io.EOF` nor `io.ErrUnexpectedEOF` contains one. -/
inductive CallerError where
  | openFailed
  | seekFailed
  | readEntryFailed (cause : GoIOError)
deriving DecidableEq, Repr

/-- Projection of the internal, instrumented error onto what the Go caller
can observe.  For a read failure the loop position `i` determines only the
io cause (the read starts at offset 446 + 16*i, so the stream is empty
there exactly when the file is no longer than that offset); the index
itself is erased, as in the Go error value. -/
def callerView (content : List Nat) : AnalyzeError → CallerError
  | .openFailed => .openFailed
  | .seekFailed => .seekFailed
  | .decodeFailed i =>
    .readEntryFailed
      (if content.length ≤ 446 + 16 * i then .eof else .unexpectedEOF)

/-- AnalyzeImageFile as seen by its Go caller: the success value unchanged,
the failure projected through `callerView` to the caller-visible error. -/
def AnalyzeImageFileCaller (path : String) (file : Option (List Nat)) :
    Except CallerError ImageFileMetadata :=
  match file with
  | none => .error .openFailed
  | some content =>
    match AnalyzeImageFile path (some content) with
    | .ok m => .ok m
    | .error e => .error (callerView content e)

-- ### Basic lemmas about the reader

theorem decode_eq_some (l : List Nat) (h : 16 ≤ l.length) :
    decodePartitionMetadata l = some (decodeFields l) := by
  simp [decodePartitionMetadata, h]

theorem decode_eq_none (l : List Nat) (h : l.length < 16) :
    decodePartitionMetadata l = none := by
  simp [decodePartitionMetadata]
  omega

theorem readPartitionEntries_zero (content : List Nat) (pos slotIndex : Nat) :
    readPartitionEntries content pos slotIndex 0 = .ok [] := rfl

theorem readPartitionEntries_succ (content : List Nat) (pos slotIndex count : Nat) :
    readPartitionEntries content pos slotIndex (count + 1) =
      match decodePartitionMetadata (content.drop pos) with
      | none => .error (.decodeFailed slotIndex)
      | some m =>
        match readPartitionEntries content (pos + 16) (slotIndex + 1) count with
        | .error e => .error e
        | .ok rest => .ok (m :: rest) := rfl

theorem readPartitionEntries_ok (content : List Nat) (pos slotIndex count : Nat)
    (h : pos + 16 * count ≤ content.length) :
    readPartitionEntries content pos slotIndex count =
      .ok (entriesFrom content pos count) := by
  induction count generalizing pos slotIndex with
  | zero => rfl
  | succ c ih =>
    have h16 : 16 ≤ (content.drop pos).length := by
      simp only [List.length_drop]; omega
    rw [readPartitionEntries_succ, decode_eq_some _ h16,
      ih (pos + 16) (slotIndex + 1) (by omega)]
    rfl

theorem readPartitionEntries_ok_length (content : List Nat) (pos slotIndex count : Nat)
    (ms : List PartitionMetadata)
    (h : readPartitionEntries content pos slotIndex count = .ok ms) :
    ms.length = count := by
  induction count generalizing pos slotIndex ms with
  | zero =>
    rw [readPartitionEntries_zero] at h
    cases h
    rfl
  | succ c ih =>
    rw [readPartitionEntries_succ] at h
    cases hdec : decodePartitionMetadata (content.drop pos) with
    | none => rw [hdec] at h; cases h
    | some m =>
      rw [hdec] at h
      cases hrec : readPartitionEntries content (pos + 16) (slotIndex + 1) c with
      | error e => rw [hrec] at h; cases h
      | ok rest =>
        rw [hrec] at h
        cases h
        simp [ih _ _ _ hrec]

theorem readPartitionEntries_err_here (content : List Nat) (pos slotIndex count : Nat)
    (h : (content.drop pos).length < 16) :
    readPartitionEntries content pos slotIndex (count + 1) =
      .error (.decodeFailed slotIndex) := by
  rw [readPartitionEntries_succ, decode_eq_none _ h]

theorem readPartitionEntries_err_cons (content : List Nat) (pos slotIndex count : Nat)
    (e : AnalyzeError) (h16 : 16 ≤ (content.drop pos).length)
    (hrec : readPartitionEntries content (pos + 16) (slotIndex + 1) count = .error e) :
    readPartitionEntries content pos slotIndex (count + 1) = .error e := by
  rw [readPartitionEntries_succ, decode_eq_some _ h16, hrec]

theorem readPartitionEntries_ok_le (content : List Nat) (pos slotIndex count : Nat)
    (ms : List PartitionMetadata)
    (h : readPartitionEntries content pos slotIndex count = .ok ms) :
    count = 0 ∨ pos + 16 * count ≤ content.length := by
  induction count generalizing pos slotIndex ms with
  | zero => exact Or.inl rfl
  | succ c ih =>
    right
    rw [readPartitionEntries_succ] at h
    cases hdec : decodePartitionMetadata (content.drop pos) with
    | none => rw [hdec] at h; cases h
    | some m =>
      rw [hdec] at h
      have hlen : 16 ≤ (content.drop pos).length := by
        by_contra hc
        rw [decode_eq_none _ (by omega)] at hdec
        cases hdec
      rw [List.length_drop] at hlen
      cases hrec : readPartitionEntries content (pos + 16) (slotIndex + 1) c with
      | error e => rw [hrec] at h; cases h
      | ok rest =>
        rcases ih _ _ _ hrec with h0 | hle
        · omega
        · omega

theorem readPartitionEntries_mem (content : List Nat) (pos slotIndex count : Nat)
    (ms : List PartitionMetadata)
    (h : readPartitionEntries content pos slotIndex count = .ok ms) :
    ∀ mp ∈ ms, ∃ q, mp = decodeFields (content.drop q) := by
  induction count generalizing pos slotIndex ms with
  | zero =>
    rw [readPartitionEntries_zero] at h
    cases h
    intro mp hmp
    cases hmp
  | succ c ih =>
    rw [readPartitionEntries_succ] at h
    cases hdec : decodePartitionMetadata (content.drop pos) with
    | none => rw [hdec] at h; cases h
    | some m =>
      rw [hdec] at h
      cases hrec : readPartitionEntries content (pos + 16) (slotIndex + 1) c with
      | error e => rw [hrec] at h; cases h
      | ok rest =>
        rw [hrec] at h
        cases h
        intro mp hmp
        rcases List.mem_cons.mp hmp with hhd | htl
        · subst hhd
          refine ⟨pos, ?_⟩
          have h16 : 16 ≤ (content.drop pos).length := by
            by_contra hc
            rw [decode_eq_none _ (by omega)] at hdec
            cases hdec
          rw [decode_eq_some _ h16] at hdec
          cases hdec
          rfl
        · exact ih _ _ _ hrec mp htl

-- ### getD and decodeFields helper lemmas

theorem getD_drop (l : List Nat) (p k : Nat) :
    (l.drop p).getD k 0 = l.getD (p + k) 0 := by
  simp [List.getD_eq_getElem?_getD, List.getElem?_drop]

theorem getD_lt_of_forall (l : List Nat) (i : Nat) (hb : ∀ b ∈ l, b < 256) :
    l.getD i 0 < 256 := by
  rw [List.getD_eq_getElem?_getD]
  cases h : l[i]? with
  | none => simp
  | some b => simpa using hb b (List.getElem?_mem h)

theorem decodeFields_drop (l : List Nat) (p : Nat) :
    decodeFields (l.drop p) =
      { Status := l.getD p 0
        StartHead := l.getD (p + 1) 0
        StartSector := l.getD (p + 2) 0
        StartCylinder := l.getD (p + 3) 0
        PartitionType := l.getD (p + 4) 0
        EndHead := l.getD (p + 5) 0
        EndSector := l.getD (p + 6) 0
        EndCylinder := l.getD (p + 7) 0
        FirstSectorLBA := readUInt32LE (l.getD (p + 8) 0) (l.getD (p + 9) 0)
          (l.getD (p + 10) 0) (l.getD (p + 11) 0)
        SectorCount := readUInt32LE (l.getD (p + 12) 0) (l.getD (p + 13) 0)
          (l.getD (p + 14) 0) (l.getD (p + 15) 0) } := by
  simp [decodeFields, getD_drop, PartitionMetadata.mk.injEq]

theorem entriesFrom_446 (content : List Nat) :
    entriesFrom content 446 4 =
      [decodeFields (content.drop 446), decodeFields (content.drop 462),
       decodeFields (content.drop 478), decodeFields (content.drop 494)] := rfl

theorem entriesFrom_table (content : List Nat) :
    entriesFrom content 0 4 =
      [decodeFields (content.drop 0), decodeFields (content.drop 16),
       decodeFields (content.drop 32), decodeFields (content.drop 48)] := rfl

-- ### AnalyzeImageFile unfolding lemmas

theorem analyze_some_err (path : String) (content : List Nat) (e : AnalyzeError)
    (h : readPartitionEntries content 446 0 4 = .error e) :
    AnalyzeImageFile path (some content) = .error e := by
  simp only [AnalyzeImageFile, MBRPartitionTableOffset]
  rw [h]

theorem analyze_ok_inv (path : String) (content : List Nat) (m : ImageFileMetadata)
    (h : AnalyzeImageFile path (some content) = .ok m) :
    ∃ ms, readPartitionEntries content 446 0 4 = .ok ms ∧
      m = { SectorSize := 512
            Filepath := path
            Partitions := ms.map fun mp =>
              { PartitionMetadata := mp
                ImageFile := { SectorSize := 512, Filepath := path } } } := by
  simp only [AnalyzeImageFile, MBRPartitionTableOffset] at h
  cases hr : readPartitionEntries content 446 0 4 with
  | error e => rw [hr] at h; cases h
  | ok ms =>
    rw [hr] at h
    cases h
    exact ⟨ms, rfl, rfl⟩

theorem analyze_ok_of_length (path : String) (content : List Nat)
    (h : 510 ≤ content.length) :
    AnalyzeImageFile path (some content) =
      .ok { SectorSize := 512
            Filepath := path
            Partitions := (entriesFrom content 446 4).map fun mp =>
              { PartitionMetadata := mp
                ImageFile := { SectorSize := 512, Filepath := path } } } := by
  simp only [AnalyzeImageFile, MBRPartitionTableOffset]
  rw [readPartitionEntries_ok content 446 0 4 (by omega)]

theorem analyze_ok_length_ge (path : String) (content : List Nat) (m : ImageFileMetadata)
    (h : AnalyzeImageFile path (some content) = .ok m) :
    510 ≤ content.length := by
  obtain ⟨ms, hr, _⟩ := analyze_ok_inv path content m h
  rcases readPartitionEntries_ok_le content 446 0 4 ms hr with h0 | hle <;> omega

theorem analyze_ok_slot (path : String) (content : List Nat) (m : ImageFileMetadata)
    (i : Nat) (hok : AnalyzeImageFile path (some content) = .ok m) (hi : i < 4) :
    m.Partitions[i]? =
      some { PartitionMetadata := decodeFields (content.drop (446 + 16 * i))
             ImageFile := { SectorSize := 512, Filepath := path } } := by
  have hlen := analyze_ok_length_ge path content m hok
  rw [analyze_ok_of_length path content hlen] at hok
  cases hok
  interval_cases i <;> simp [entriesFrom_446]

theorem decodeFields_zero (l : List Nat) (p : Nat)
    (hz : ∀ k, k < 16 → l.getD (p + k) 0 = 0) :
    decodeFields (l.drop p) = ⟨0, 0, 0, 0, 0, 0, 0, 0, 0, 0⟩ := by
  have h0 := hz 0 (by norm_num)
  have h1 := hz 1 (by norm_num)
  have h2 := hz 2 (by norm_num)
  have h3 := hz 3 (by norm_num)
  have h4 := hz 4 (by norm_num)
  have h5 := hz 5 (by norm_num)
  have h6 := hz 6 (by norm_num)
  have h7 := hz 7 (by norm_num)
  have h8 := hz 8 (by norm_num)
  have h9 := hz 9 (by norm_num)
  have h10 := hz 10 (by norm_num)
  have h11 := hz 11 (by norm_num)
  have h12 := hz 12 (by norm_num)
  have h13 := hz 13 (by norm_num)
  have h14 := hz 14 (by norm_num)
  have h15 := hz 15 (by norm_num)
  rw [Nat.add_zero] at h0
  simp only [List.getD_eq_getElem?_getD] at h0 h1 h2 h3 h4 h5 h6 h7 h8 h9 h10 h11 h12 h13 h14 h15
  rw [decodeFields_drop]
  simp [PartitionMetadata.mk.injEq, readUInt32LE,
    h0, h1, h2, h3, h4, h5, h6, h7, h8, h9, h10, h11, h12, h13, h14, h15]

theorem decodeFields_fields_lt (l : List Nat) (hb : ∀ b ∈ l, b < 256) :
    (decodeFields l).FirstSectorLBA < 2 ^ 32 ∧ (decodeFields l).SectorCount < 2 ^ 32 := by
  have h8 := getD_lt_of_forall l 8 hb
  have h9 := getD_lt_of_forall l 9 hb
  have h10 := getD_lt_of_forall l 10 hb
  have h11 := getD_lt_of_forall l 11 hb
  have h12 := getD_lt_of_forall l 12 hb
  have h13 := getD_lt_of_forall l 13 hb
  have h14 := getD_lt_of_forall l 14 hb
  have h15 := getD_lt_of_forall l 15 hb
  simp only [decodeFields, readUInt32LE]
  omega

theorem decodeFields_congr (c1 c2 : List Nat) (p : Nat)
    (h : ∀ k, k < 16 → c1.getD (p + k) 0 = c2.getD (p + k) 0) :
    decodeFields (c1.drop p) = decodeFields (c2.drop p) := by
  have h0 := h 0 (by norm_num)
  have h1 := h 1 (by norm_num)
  have h2 := h 2 (by norm_num)
  have h3 := h 3 (by norm_num)
  have h4 := h 4 (by norm_num)
  have h5 := h 5 (by norm_num)
  have h6 := h 6 (by norm_num)
  have h7 := h 7 (by norm_num)
  have h8 := h 8 (by norm_num)
  have h9 := h 9 (by norm_num)
  have h10 := h 10 (by norm_num)
  have h11 := h 11 (by norm_num)
  have h12 := h 12 (by norm_num)
  have h13 := h 13 (by norm_num)
  have h14 := h 14 (by norm_num)
  have h15 := h 15 (by norm_num)
  rw [Nat.add_zero] at h0
  rw [decodeFields_drop, decodeFields_drop,
    h0, h1, h2, h3, h4, h5, h6, h7, h8, h9, h10, h11, h12, h13, h14, h15]

theorem encode_decodeFields_take (l : List Nat) (h : 16 ≤ l.length)
    (hb : ∀ b ∈ l, b < 256) :
    encodePartitionMetadata (decodeFields l) = l.take 16 := by
  rcases l with _ | ⟨b0, l⟩; · simp at h
  rcases l with _ | ⟨b1, l⟩; · simp at h
  rcases l with _ | ⟨b2, l⟩; · simp at h
  rcases l with _ | ⟨b3, l⟩; · simp at h
  rcases l with _ | ⟨b4, l⟩; · simp at h
  rcases l with _ | ⟨b5, l⟩; · simp at h
  rcases l with _ | ⟨b6, l⟩; · simp at h
  rcases l with _ | ⟨b7, l⟩; · simp at h
  rcases l with _ | ⟨b8, l⟩; · simp at h
  rcases l with _ | ⟨b9, l⟩; · simp at h
  rcases l with _ | ⟨b10, l⟩; · simp at h
  rcases l with _ | ⟨b11, l⟩; · simp at h
  rcases l with _ | ⟨b12, l⟩; · simp at h
  rcases l with _ | ⟨b13, l⟩; · simp at h
  rcases l with _ | ⟨b14, l⟩; · simp at h
  rcases l with _ | ⟨b15, l⟩; · simp at h
  have hb8 : b8 < 256 := hb b8 (by simp)
  have hb9 : b9 < 256 := hb b9 (by simp)
  have hb10 : b10 < 256 := hb b10 (by simp)
  have hb11 : b11 < 256 := hb b11 (by simp)
  have hb12 : b12 < 256 := hb b12 (by simp)
  have hb13 : b13 < 256 := hb b13 (by simp)
  have hb14 : b14 < 256 := hb b14 (by simp)
  have hb15 : b15 < 256 := hb b15 (by simp)
  simp [encodePartitionMetadata, decodeFields, uint32LEBytes, readUInt32LE]
  omega

-- ### Claim theorems

/-- C1: for every image whose bytes at offsets 446 through 509 are all
readable (content length at least 510), AnalyzeImageFile succeeds and the
slot-i partition (0 ≤ i ≤ 3) of the result is decoded from the 16 bytes at
absolute offset 446 + 16*i per the §6 layout: eight single bytes at entry
offsets 0 through 7, then firstSectorLBA and sectorCount as little-endian
uint32 values at entry offsets 8 through 11 and 12 through 15, with slots in
table order 0 through 3. -/
theorem analyze_decodes_each_slot (path : String) (content : List Nat)
    (h : 510 ≤ content.length) :
    ∃ m, AnalyzeImageFile path (some content) = .ok m ∧
      m.Partitions.length = 4 ∧
      ∀ i, i < 4 →
        m.Partitions[i]? =
          some { PartitionMetadata :=
                   { Status := content.getD (446 + 16 * i) 0
                     StartHead := content.getD (446 + 16 * i + 1) 0
                     StartSector := content.getD (446 + 16 * i + 2) 0
                     StartCylinder := content.getD (446 + 16 * i + 3) 0
                     PartitionType := content.getD (446 + 16 * i + 4) 0
                     EndHead := content.getD (446 + 16 * i + 5) 0
                     EndSector := content.getD (446 + 16 * i + 6) 0
                     EndCylinder := content.getD (446 + 16 * i + 7) 0
                     FirstSectorLBA := readUInt32LE (content.getD (446 + 16 * i + 8) 0)
                       (content.getD (446 + 16 * i + 9) 0)
                       (content.getD (446 + 16 * i + 10) 0)
                       (content.getD (446 + 16 * i + 11) 0)
                     SectorCount := readUInt32LE (content.getD (446 + 16 * i + 12) 0)
                       (content.getD (446 + 16 * i + 13) 0)
                       (content.getD (446 + 16 * i + 14) 0)
                       (content.getD (446 + 16 * i + 15) 0) }
                 ImageFile := { SectorSize := 512, Filepath := path } } := by
  refine ⟨_, analyze_ok_of_length path content h, ?_, ?_⟩
  · simp [entriesFrom_446]
  · intro i hi
    rw [analyze_ok_slot path content _ i (analyze_ok_of_length path content h) hi,
      decodeFields_drop]

/-- C1 witness: the theorem applied to a concrete 510-byte all-zero image. -/
theorem analyze_decodes_each_slot_witness :
    ∃ m, AnalyzeImageFile "disk.img" (some (List.replicate 510 0)) = .ok m ∧
      m.Partitions.length = 4 ∧
      ∀ i, i < 4 →
        m.Partitions[i]? =
          some { PartitionMetadata :=
                   { Status := (List.replicate 510 0).getD (446 + 16 * i) 0
                     StartHead := (List.replicate 510 0).getD (446 + 16 * i + 1) 0
                     StartSector := (List.replicate 510 0).getD (446 + 16 * i + 2) 0
                     StartCylinder := (List.replicate 510 0).getD (446 + 16 * i + 3) 0
                     PartitionType := (List.replicate 510 0).getD (446 + 16 * i + 4) 0
                     EndHead := (List.replicate 510 0).getD (446 + 16 * i + 5) 0
                     EndSector := (List.replicate 510 0).getD (446 + 16 * i + 6) 0
                     EndCylinder := (List.replicate 510 0).getD (446 + 16 * i + 7) 0
                     FirstSectorLBA := readUInt32LE
                       ((List.replicate 510 0).getD (446 + 16 * i + 8) 0)
                       ((List.replicate 510 0).getD (446 + 16 * i + 9) 0)
                       ((List.replicate 510 0).getD (446 + 16 * i + 10) 0)
                       ((List.replicate 510 0).getD (446 + 16 * i + 11) 0)
                     SectorCount := readUInt32LE
                       ((List.replicate 510 0).getD (446 + 16 * i + 12) 0)
                       ((List.replicate 510 0).getD (446 + 16 * i + 13) 0)
                       ((List.replicate 510 0).getD (446 + 16 * i + 14) 0)
                       ((List.replicate 510 0).getD (446 + 16 * i + 15) 0) }
                 ImageFile := { SectorSize := 512, Filepath := "disk.img" } } :=
  analyze_decodes_each_slot "disk.img" (List.replicate 510 0)
    (List.length_replicate 510 0).symm.le

/-- C2: Start is exactly firstSectorLBA times sectorSize and Size exactly
sectorCount times sectorSize, with no uint64 overflow or truncation for any
firstSectorLBA and sectorCount below 2^32 and sectorSize below 2^16; both
are total and yield 0 when the corresponding entry field is 0 (in
particular on the all-zero entry). -/
theorem start_size_exact (p : Partition)
    (hlba : p.PartitionMetadata.FirstSectorLBA < 2 ^ 32)
    (hcnt : p.PartitionMetadata.SectorCount < 2 ^ 32)
    (hss : p.ImageFile.SectorSize < 2 ^ 16) :
    p.Start = p.PartitionMetadata.FirstSectorLBA * p.ImageFile.SectorSize ∧
    p.Size = p.PartitionMetadata.SectorCount * p.ImageFile.SectorSize ∧
    (p.PartitionMetadata.FirstSectorLBA = 0 → p.Start = 0) ∧
    (p.PartitionMetadata.SectorCount = 0 → p.Size = 0) := by
  have hb1 : p.PartitionMetadata.FirstSectorLBA * p.ImageFile.SectorSize ≤
      (2 ^ 32 - 1) * (2 ^ 16 - 1) := Nat.mul_le_mul (by omega) (by omega)
  have hb2 : p.PartitionMetadata.SectorCount * p.ImageFile.SectorSize ≤
      (2 ^ 32 - 1) * (2 ^ 16 - 1) := Nat.mul_le_mul (by omega) (by omega)
  have hlt : (2 ^ 32 - 1) * (2 ^ 16 - 1) < 2 ^ 64 := by norm_num
  refine ⟨?_, ?_, ?_, ?_⟩
  · exact Nat.mod_eq_of_lt (lt_of_le_of_lt hb1 hlt)
  · exact Nat.mod_eq_of_lt (lt_of_le_of_lt hb2 hlt)
  · intro h0
    simp [Partition.Start, h0]
  · intro h0
    simp [Partition.Size, h0]

/-- C2 witness: the theorem applied to the concrete entry of the spec §8
scenario (LBA 63, sector count 784897, sector size 512). -/
theorem start_size_exact_witness :
    Partition.Start ⟨⟨128, 0, 1, 0, 11, 0, 0, 0, 63, 784897⟩, ⟨512, "disk.img"⟩⟩ = 63 * 512 ∧
    Partition.Size ⟨⟨128, 0, 1, 0, 11, 0, 0, 0, 63, 784897⟩, ⟨512, "disk.img"⟩⟩ = 784897 * 512 ∧
    ((63 : Nat) = 0 →
      Partition.Start ⟨⟨128, 0, 1, 0, 11, 0, 0, 0, 63, 784897⟩, ⟨512, "disk.img"⟩⟩ = 0) ∧
    ((784897 : Nat) = 0 →
      Partition.Size ⟨⟨128, 0, 1, 0, 11, 0, 0, 0, 63, 784897⟩, ⟨512, "disk.img"⟩⟩ = 0) :=
  start_size_exact ⟨⟨128, 0, 1, 0, 11, 0, 0, 0, 63, 784897⟩, ⟨512, "disk.img"⟩⟩
    (by norm_num) (by norm_num) (by norm_num)

/-- C3: for every input, AnalyzeImageFile either fails with an error and
yields no metadata, or succeeds with a Partitions sequence of length exactly
4; a partial result is never returned. -/
theorem analyze_all_or_nothing (path : String) (file : Option (List Nat)) :
    (∃ e, AnalyzeImageFile path file = .error e) ∨
    (∃ m, AnalyzeImageFile path file = .ok m ∧ m.Partitions.length = 4) := by
  cases file with
  | none => exact Or.inl ⟨.openFailed, rfl⟩
  | some content =>
    cases hr : readPartitionEntries content 446 0 4 with
    | error e => exact Or.inl ⟨e, analyze_some_err path content e hr⟩
    | ok ms =>
      right
      refine ⟨{ SectorSize := 512
                Filepath := path
                Partitions := ms.map fun mp =>
                  { PartitionMetadata := mp
                    ImageFile := { SectorSize := 512, Filepath := path } } }, ?_, ?_⟩
      · simp only [AnalyzeImageFile, MBRPartitionTableOffset]
        rw [hr]
      · simp [readPartitionEntries_ok_length content 446 0 4 ms hr]

/-- C4 counterexample: the empty regular file is shorter than 446 bytes, yet
AnalyzeImageFile fails with decodeFailed 0 (the first entry read) and not
with seekFailed — seeking past end-of-file succeeds on a regular file, so
the failure surfaces at the read, contradicting the claim as stated. -/
theorem short_file_seek_counterexample :
    ([] : List Nat).length < 446 ∧
    AnalyzeImageFile "disk.img" (some []) = .error (.decodeFailed 0) ∧
    AnalyzeImageFile "disk.img" (some []) ≠ .error .seekFailed := by
  refine ⟨by norm_num, rfl, by decide⟩

/-- C4 (amended): for every openable regular file shorter than 446 bytes,
AnalyzeImageFile fails with the DecodeFailed kind carrying slot 0 — not
SeekFailed — and no ImageFileMetadata is produced. -/
theorem analyze_short_decode_failure (path : String) (content : List Nat)
    (h : content.length < 446) :
    AnalyzeImageFile path (some content) = .error (.decodeFailed 0) ∧
    AnalyzeImageFile path (some content) ≠ .error .seekFailed := by
  have herr : readPartitionEntries content 446 0 4 = .error (.decodeFailed 0) := by
    have hlt : (content.drop 446).length < 16 := by rw [List.length_drop]; omega
    exact readPartitionEntries_err_here content 446 0 3 hlt
  have h1 := analyze_some_err path content _ herr
  exact ⟨h1, by rw [h1]; simp⟩

/-- C4 witness: the amended theorem applied to the empty file. -/
theorem analyze_short_decode_failure_witness :
    ([] : List Nat).length < 446 ∧
    (AnalyzeImageFile "img2.img" (some []) = .error (.decodeFailed 0) ∧
     AnalyzeImageFile "img2.img" (some []) ≠ .error .seekFailed) :=
  ⟨by norm_num, analyze_short_decode_failure "img2.img" [] (by norm_num)⟩

set_option maxRecDepth 10000 in
/-- C5 counterexample: on an image of exactly 446 bytes (table region
entirely absent) the code fails with the decode (read) kind decodeFailed 0,
not with the seek kind, contradicting the claim as stated. -/
theorem table_absent_counterexample :
    (List.replicate 446 0).length = 446 ∧
    AnalyzeImageFile "disk.img" (some (List.replicate 446 0)) = .error (.decodeFailed 0) ∧
    AnalyzeImageFile "disk.img" (some (List.replicate 446 0)) ≠ .error .seekFailed := by
  refine ⟨List.length_replicate 446 0, by decide, by decide⟩

/-- C5 (amended): an image of exactly 446 bytes (table region entirely
absent) yields a decode (read) failure identifying slot 0, and not a
table-location (seek) failure. -/
theorem table_absent_decode_failure (path : String) (content : List Nat)
    (h : content.length = 446) :
    AnalyzeImageFile path (some content) = .error (.decodeFailed 0) ∧
    AnalyzeImageFile path (some content) ≠ .error .seekFailed := by
  have herr : readPartitionEntries content 446 0 4 = .error (.decodeFailed 0) := by
    have hlt : (content.drop 446).length < 16 := by rw [List.length_drop]; omega
    exact readPartitionEntries_err_here content 446 0 3 hlt
  have h1 := analyze_some_err path content _ herr
  exact ⟨h1, by rw [h1]; simp⟩

/-- C5 witness: the amended theorem applied to a concrete 446-byte image. -/
theorem table_absent_decode_failure_witness :
    (List.replicate 446 0).length = 446 ∧
    (AnalyzeImageFile "img3.img" (some (List.replicate 446 0)) = .error (.decodeFailed 0) ∧
     AnalyzeImageFile "img3.img" (some (List.replicate 446 0)) ≠ .error .seekFailed) :=
  ⟨List.length_replicate 446 0,
   table_absent_decode_failure "img3.img" (List.replicate 446 0) (List.length_replicate 446 0)⟩

/-- Internal lemma: on a file of exactly 446 + N bytes with 0 ≤ N < 64 the
read loop aborts at iteration N / 16, which is the first slot whose 16
bytes are not fully readable (every earlier slot lies fully inside the
file, slot N / 16 does not), and no partitions sequence is produced.  The
slot index here lives in the instrumented internal error, not in the error
value the Go caller receives. -/
theorem analyze_truncated_internal (path : String) (content : List Nat) (N : Nat)
    (hlen : content.length = 446 + N) (hN : N < 64) :
    AnalyzeImageFile path (some content) = .error (.decodeFailed (N / 16)) ∧
    (∀ j, j < N / 16 → 446 + 16 * (j + 1) ≤ content.length) ∧
    content.length < 446 + 16 * (N / 16) + 16 := by
  refine ⟨?_, fun j hj => by omega, by omega⟩
  apply analyze_some_err
  have hq : N / 16 = 0 ∨ N / 16 = 1 ∨ N / 16 = 2 ∨ N / 16 = 3 := by omega
  rcases hq with h | h | h | h <;> rw [h]
  · exact readPartitionEntries_err_here content 446 0 3 (by rw [List.length_drop]; omega)
  · apply readPartitionEntries_err_cons content 446 0 3 _ (by rw [List.length_drop]; omega)
    exact readPartitionEntries_err_here content 462 1 2 (by rw [List.length_drop]; omega)
  · apply readPartitionEntries_err_cons content 446 0 3 _ (by rw [List.length_drop]; omega)
    apply readPartitionEntries_err_cons content 462 1 2 _ (by rw [List.length_drop]; omega)
    exact readPartitionEntries_err_here content 478 2 1 (by rw [List.length_drop]; omega)
  · apply readPartitionEntries_err_cons content 446 0 3 _ (by rw [List.length_drop]; omega)
    apply readPartitionEntries_err_cons content 462 1 2 _ (by rw [List.length_drop]; omega)
    apply readPartitionEntries_err_cons content 478 2 1 _ (by rw [List.length_drop]; omega)
    exact readPartitionEntries_err_here content 494 3 0 (by rw [List.length_drop]; omega)

set_option maxRecDepth 10000 in
/-- C6 counterexample: two truncated images whose first non-readable slots
differ (a 446-byte image fails at slot 0, a 478-byte image at slot 2)
produce the identical caller-visible error — the constant read-entry wrap
over io.EOF — so the error returned to the caller does not identify
(carry) the index of the failed slot, refuting the claim as stated. -/
theorem truncated_error_no_index_counterexample :
    (List.replicate 446 0).length = 446 + 0 ∧
    (List.replicate 478 0).length = 446 + 32 ∧
    (0 : Nat) / 16 ≠ 32 / 16 ∧
    AnalyzeImageFileCaller "disk.img" (some (List.replicate 446 0)) =
      AnalyzeImageFileCaller "disk.img" (some (List.replicate 478 0)) ∧
    AnalyzeImageFileCaller "disk.img" (some (List.replicate 478 0)) =
      .error (.readEntryFailed .eof) := by
  refine ⟨List.length_replicate 446 0, List.length_replicate 478 0,
    by norm_num, by decide, by decide⟩

/-- C6 (amended): a file of exactly 446 + N bytes with 0 ≤ N < 64 fails
with the read-entry (DecodeFailed) error kind — the constant wrap message
over io.EOF when the failing slot starts at or past end-of-file and
io.ErrUnexpectedEOF otherwise — aborting the whole operation with no
partitions returned; the first slot whose 16 bytes could not be fully read
is N / 16, but the error value returned to the caller does not carry that
slot index. -/
theorem analyze_truncated_caller_error (path : String) (content : List Nat) (N : Nat)
    (hlen : content.length = 446 + N) (hN : N < 64) :
    AnalyzeImageFileCaller path (some content) =
      .error (.readEntryFailed (if N % 16 = 0 then .eof else .unexpectedEOF)) ∧
    (∀ j, j < N / 16 → 446 + 16 * (j + 1) ≤ content.length) ∧
    content.length < 446 + 16 * (N / 16) + 16 := by
  obtain ⟨h1, h2, h3⟩ := analyze_truncated_internal path content N hlen hN
  refine ⟨?_, h2, h3⟩
  simp only [AnalyzeImageFileCaller]
  rw [h1]
  simp only [callerView]
  by_cases hc : N % 16 = 0
  · rw [if_pos hc, if_pos (by omega)]
  · rw [if_neg hc, if_neg (by omega)]

/-- C6 witness: the amended theorem applied to a 466-byte file (N = 20, so
the first unreadable slot is slot 1 and the io cause is unexpectedEOF). -/
theorem analyze_truncated_caller_error_witness :
    AnalyzeImageFileCaller "disk.img" (some (List.replicate 466 0)) =
      .error (.readEntryFailed (if 20 % 16 = 0 then .eof else .unexpectedEOF)) ∧
    (∀ j, j < 20 / 16 → 446 + 16 * (j + 1) ≤ (List.replicate 466 0).length) ∧
    (List.replicate 466 0).length < 446 + 16 * (20 / 16) + 16 :=
  analyze_truncated_caller_error "disk.img" (List.replicate 466 0) 20
    (by rw [List.length_replicate]) (by norm_num)

/-- C7: on every successful AnalyzeImageFile call, a table slot whose 16
bytes are all zero decodes without error into the all-zero partition entry
(status 0, partitionType 0, firstSectorLBA 0, sectorCount 0), preserved
verbatim at its slot position in the result (not filtered out), and its
Start and Size are both 0. -/
theorem zero_slot_preserved (path : String) (content : List Nat)
    (m : ImageFileMetadata) (i : Nat)
    (hok : AnalyzeImageFile path (some content) = .ok m) (hi : i < 4)
    (hz : ∀ k, k < 16 → content.getD (446 + 16 * i + k) 0 = 0) :
    ∃ p, m.Partitions[i]? = some p ∧
      p.PartitionMetadata = ⟨0, 0, 0, 0, 0, 0, 0, 0, 0, 0⟩ ∧
      p.Start = 0 ∧ p.Size = 0 := by
  have hslot := analyze_ok_slot path content m i hok hi
  have hz0 := decodeFields_zero content (446 + 16 * i) hz
  refine ⟨_, hslot, hz0, ?_, ?_⟩
  · simp [Partition.Start, hz0]
  · simp [Partition.Size, hz0]

set_option maxRecDepth 10000 in
/-- C7 witness: the theorem applied to a 510-byte all-zero image at slot 2. -/
theorem zero_slot_preserved_witness :
    ∃ p,
      (ImageFileMetadata.Partitions
        { SectorSize := 512
          Filepath := "disk.img"
          Partitions := List.replicate 4
            { PartitionMetadata := ⟨0, 0, 0, 0, 0, 0, 0, 0, 0, 0⟩
              ImageFile := { SectorSize := 512, Filepath := "disk.img" } } })[2]? = some p ∧
      p.PartitionMetadata = ⟨0, 0, 0, 0, 0, 0, 0, 0, 0, 0⟩ ∧
      p.Start = 0 ∧ p.Size = 0 :=
  zero_slot_preserved "disk.img" (List.replicate 510 0)
    { SectorSize := 512
      Filepath := "disk.img"
      Partitions := List.replicate 4
        { PartitionMetadata := ⟨0, 0, 0, 0, 0, 0, 0, 0, 0, 0⟩
          ImageFile := { SectorSize := 512, Filepath := "disk.img" } } }
    2 (by decide) (by norm_num) (by decide)

/-- C8: decoding the 4 entries of any 64-byte table region per the §6
layout and re-encoding them, each field written back at its entry offset
with multi-byte fields little-endian, reproduces the original 64 bytes
exactly: the decode is a lossless round-trip on the raw fixed layout. -/
theorem table_decode_encode_roundtrip (region : List Nat)
    (hlen : region.length = 64) (hb : ∀ b ∈ region, b < 256) :
    ∃ ms, readPartitionEntries region 0 0 4 = .ok ms ∧
      (ms.map encodePartitionMetadata).flatten = region := by
  refine ⟨_, readPartitionEntries_ok region 0 0 4 (by omega), ?_⟩
  rw [entriesFrom_table]
  have hbd : ∀ q, ∀ b ∈ region.drop q, b < 256 :=
    fun q b hm => hb b (List.drop_subset q region hm)
  have e0 : encodePartitionMetadata (decodeFields (region.drop 0)) = (region.drop 0).take 16 :=
    encode_decodeFields_take _ (by rw [List.length_drop]; omega) (hbd 0)
  have e16 : encodePartitionMetadata (decodeFields (region.drop 16)) = (region.drop 16).take 16 :=
    encode_decodeFields_take _ (by rw [List.length_drop]; omega) (hbd 16)
  have e32 : encodePartitionMetadata (decodeFields (region.drop 32)) = (region.drop 32).take 16 :=
    encode_decodeFields_take _ (by rw [List.length_drop]; omega) (hbd 32)
  have e48 : encodePartitionMetadata (decodeFields (region.drop 48)) = (region.drop 48).take 16 :=
    encode_decodeFields_take _ (by rw [List.length_drop]; omega) (hbd 48)
  simp only [List.map_cons, List.map_nil, List.flatten_cons, List.flatten_nil, e0, e16, e32, e48]
  have t48 : (region.drop 48).take 16 = region.drop 48 :=
    List.take_of_length_le (by rw [List.length_drop]; omega)
  have a32 : (region.drop 32).take 16 ++ region.drop 48 = region.drop 32 := by
    have h := List.take_append_drop 16 (region.drop 32)
    rw [List.drop_drop] at h
    norm_num at h
    exact h
  have a16 : (region.drop 16).take 16 ++ region.drop 32 = region.drop 16 := by
    have h := List.take_append_drop 16 (region.drop 16)
    rw [List.drop_drop] at h
    norm_num at h
    exact h
  rw [List.append_nil, t48, a32, a16, List.drop_zero]
  exact List.take_append_drop 16 region

set_option maxRecDepth 10000 in
/-- C8 witness: the round-trip theorem applied to the all-zero 64-byte
table region. -/
theorem table_decode_encode_roundtrip_witness :
    ∃ ms, readPartitionEntries (List.replicate 64 0) 0 0 4 = .ok ms ∧
      (ms.map encodePartitionMetadata).flatten = List.replicate 64 0 :=
  table_decode_encode_roundtrip (List.replicate 64 0) (List.length_replicate 64 0) (by decide)

/-- C9: every partition of a successfully returned ImageFileMetadata has an
ImageFile back-reference agreeing with the containing metadata (same
SectorSize and Filepath), the SectorSize is the constant 512, and
consequently Start = firstSectorLBA * 512 and Size = sectorCount * 512. -/
theorem partitions_backref_sector512 (path : String) (content : List Nat)
    (m : ImageFileMetadata) (hb : ∀ b ∈ content, b < 256)
    (hok : AnalyzeImageFile path (some content) = .ok m) :
    m.SectorSize = 512 ∧
    ∀ p ∈ m.Partitions,
      p.ImageFile = ⟨m.SectorSize, m.Filepath⟩ ∧
      p.Start = p.PartitionMetadata.FirstSectorLBA * 512 ∧
      p.Size = p.PartitionMetadata.SectorCount * 512 := by
  obtain ⟨ms, hr, rfl⟩ := analyze_ok_inv path content m hok
  refine ⟨rfl, ?_⟩
  intro p hp
  simp only [List.mem_map] at hp
  obtain ⟨mp, hmp, rfl⟩ := hp
  obtain ⟨q, rfl⟩ := readPartitionEntries_mem content 446 0 4 ms hr mp hmp
  have hbq : ∀ b ∈ content.drop q, b < 256 :=
    fun b hm => hb b (List.drop_subset q content hm)
  obtain ⟨hlba, hcnt⟩ := decodeFields_fields_lt (content.drop q) hbq
  refine ⟨rfl, ?_, ?_⟩
  · simp only [Partition.Start]
    omega
  · simp only [Partition.Size]
    omega

set_option maxRecDepth 10000 in
/-- C9 witness: the theorem applied to a 510-byte all-zero image; the
resulting metadata value is written in reduced form. -/
theorem partitions_backref_sector512_witness :
    (512 : Nat) = 512 ∧
    ∀ p ∈ List.replicate 4
        ({ PartitionMetadata := ⟨0, 0, 0, 0, 0, 0, 0, 0, 0, 0⟩
           ImageFile := { SectorSize := 512, Filepath := "disk.img" } } : Partition),
      p.ImageFile = ⟨512, "disk.img"⟩ ∧
      p.Start = p.PartitionMetadata.FirstSectorLBA * 512 ∧
      p.Size = p.PartitionMetadata.SectorCount * 512 :=
  partitions_backref_sector512 "disk.img" (List.replicate 510 0)
    { SectorSize := 512
      Filepath := "disk.img"
      Partitions := List.replicate 4
        { PartitionMetadata := ⟨0, 0, 0, 0, 0, 0, 0, 0, 0, 0⟩
          ImageFile := { SectorSize := 512, Filepath := "disk.img" } } }
    (by decide) (by decide)

/-- C10: the successful result of AnalyzeImageFile depends only on the path
and the 64 bytes at offsets 446 through 509: two contents of sufficient
length that agree on those bytes yield identical results under the same
path, regardless of all other bytes. -/
theorem analyze_table_noninterference (path : String) (c1 c2 : List Nat)
    (h1 : 510 ≤ c1.length) (h2 : 510 ≤ c2.length)
    (hagree : ∀ k, k < 64 → c1.getD (446 + k) 0 = c2.getD (446 + k) 0) :
    AnalyzeImageFile path (some c1) = AnalyzeImageFile path (some c2) := by
  rw [analyze_ok_of_length path c1 h1, analyze_ok_of_length path c2 h2]
  have e0 : decodeFields (c1.drop 446) = decodeFields (c2.drop 446) :=
    decodeFields_congr c1 c2 446 fun k hk => hagree k (by omega)
  have e1 : decodeFields (c1.drop 462) = decodeFields (c2.drop 462) :=
    decodeFields_congr c1 c2 462 fun k hk => by
      have h := hagree (16 + k) (by omega)
      rw [show 446 + (16 + k) = 462 + k by omega] at h
      exact h
  have e2 : decodeFields (c1.drop 478) = decodeFields (c2.drop 478) :=
    decodeFields_congr c1 c2 478 fun k hk => by
      have h := hagree (32 + k) (by omega)
      rw [show 446 + (32 + k) = 478 + k by omega] at h
      exact h
  have e3 : decodeFields (c1.drop 494) = decodeFields (c2.drop 494) :=
    decodeFields_congr c1 c2 494 fun k hk => by
      have h := hagree (48 + k) (by omega)
      rw [show 446 + (48 + k) = 494 + k by omega] at h
      exact h
  rw [entriesFrom_446, entriesFrom_446, e0, e1, e2, e3]

set_option maxRecDepth 10000 in
/-- C10 witness: two concrete images differing only past the table region
(an extra byte 7 appended) produce the same analysis result. -/
theorem analyze_table_noninterference_witness :
    AnalyzeImageFile "disk.img" (some (List.replicate 510 0)) =
      AnalyzeImageFile "disk.img" (some (List.replicate 510 0 ++ [7])) :=
  analyze_table_noninterference "disk.img" (List.replicate 510 0)
    (List.replicate 510 0 ++ [7]) (List.length_replicate 510 0).symm.le
    (by decide) (by decide)
